import Mathlib

/-!
Verification development for the csv-pals repository.

The repository is a small admin tool: a backend function
(supabase/functions/parse-csv/index.ts) receives CSV text, validates and
parses rows, generates a synthetic email and password per row, and inserts
the results.  Two variants of the function coexist in the source: a strict
one (with validation, sanitization, crypto-random passwords) and a
permissive one (no validation, derived passwords).

JavaScript strings are modelled as List Char (named JStr).  Each definition
below embeds the correspondingly named function of the source file; comments
give the source location.
-/

abbrev JStr := List Char

/-- The whitespace class of JavaScript: the set matched by the regex class
backslash-s and removed by String.prototype.trim. -/
def isJsWs (c : Char) : Bool :=
  [' ', '\t', '\n', '\r', '\x0b', '\x0c', '\u00A0', '\u1680',
   '\u2000', '\u2001', '\u2002', '\u2003', '\u2004', '\u2005', '\u2006',
   '\u2007', '\u2008', '\u2009', '\u200A', '\u2028', '\u2029', '\u202F',
   '\u205F', '\u3000', '\uFEFF'].contains c

/-- Model of the JavaScript String.prototype.trim method. -/
def jsTrim (s : JStr) : JStr :=
  ((s.dropWhile isJsWs).reverse.dropWhile isJsWs).reverse

/-- Model of String.prototype.toLowerCase restricted to ASCII. -/
def jsToLower (s : JStr) : JStr := s.map Char.toLower

/-- Strip at most one leading and at most one trailing quote character,
as the replace with regex anchored-quote-class does (index.ts line 34). -/
def stripQuotes (s : JStr) : JStr :=
  let t :=
    match s with
    | c :: rest => if c == '\x22' || c == '\x27' then rest else s
    | [] => []
  match t.getLast? with
  | some c => if c == '\x22' || c == '\x27' then t.dropLast else t
  | none => t

/-- The trimmed, quote-stripped value computed at the start of
sanitizeCSVValue (index.ts line 34). -/
def sanitizeBase (s : JStr) : JStr := stripQuotes (jsTrim s)

/-- True when the value begins with one of the formula-injection
characters checked in sanitizeCSVValue (index.ts lines 36-37). -/
def startsWithFormula (s : JStr) : Bool :=
  match s with
  | c :: _ => c == '=' || c == '+' || c == '-' || c == '@'
  | [] => false

/-- sanitizeCSVValue (index.ts lines 33-41): trim, strip surrounding
quotes, and drop one leading formula-injection character if present. -/
def sanitizeCSVValue (s : JStr) : JStr :=
  let t := sanitizeBase s
  if startsWithFormula t then t.drop 1 else t

/-- Model of Array.prototype.join with a separator. -/
def joinSep (sep : JStr) : List JStr → JStr
  | [] => []
  | [x] => x
  | x :: y :: xs => x ++ sep ++ joinSep sep (y :: xs)

/-- needle is a prefix of hay (helper for substring search). -/
def leadsWith : JStr → JStr → Bool
  | [], _ => true
  | _ :: _, [] => false
  | a :: as, b :: bs => a == b && leadsWith as bs

/-- Model of String.prototype.includes: needle occurs inside hay. -/
def containsSub (needle : JStr) : JStr → Bool
  | [] => leadsWith needle []
  | h :: t => leadsWith needle (h :: t) || containsSub needle t

/-! ## Validators (index.ts lines 23-84) -/

/-- A character allowed by the name pattern (index.ts line 25). -/
def isNameChar (c : Char) : Bool :=
  c.isAlpha || isJsWs c || c == '-' || c == '\x27' || c == '.'

/-- The anchored name regex: nonempty and all characters allowed. -/
def namePattern (s : JStr) : Bool := !s.isEmpty && s.all isNameChar

/-- A character allowed by the case-insensitive postal pattern
(index.ts line 26). -/
def isPostalChar (c : Char) : Bool :=
  c.isAlpha || c.isDigit || isJsWs c || c == '-'

/-- The anchored postal-code regex: nonempty and all characters allowed. -/
def postalPattern (s : JStr) : Bool := !s.isEmpty && s.all isPostalChar

/-- Result of a validator: the valid flag and the optional message. -/
structure VRes where
  valid : Bool
  error : Option JStr
deriving DecidableEq

/-- validateName (index.ts lines 44-55). -/
def validateName (name : JStr) : VRes :=
  if name.isEmpty then ⟨false, some (("Name is required").toList)⟩
  else if name.length > 100 then
    ⟨false, some (("Name must be less than 100 characters").toList)⟩
  else if !namePattern name then
    ⟨false, some (("Name contains invalid characters").toList)⟩
  else ⟨true, none⟩

/-- validatePostalCode (index.ts lines 58-69). -/
def validatePostalCode (postalCode : JStr) : VRes :=
  if postalCode.isEmpty then ⟨false, some (("Postal code is required").toList)⟩
  else if postalCode.length > 20 then
    ⟨false, some (("Postal code must be less than 20 characters").toList)⟩
  else if !postalPattern postalCode then
    ⟨false, some (("Postal code contains invalid characters").toList)⟩
  else ⟨true, none⟩

/-- The strict birthday regex: four digits, dash, two digits, dash,
two digits, anchored (index.ts line 27). -/
def birthdayPattern : JStr → Bool
  | [y1, y2, y3, y4, d1, m1, m2, d2, a1, a2] =>
    y1.isDigit && y2.isDigit && y3.isDigit && y4.isDigit &&
    d1 == '-' && m1.isDigit && m2.isDigit && d2 == '-' &&
    a1.isDigit && a2.isDigit
  | _ => false

/-- Decimal value of a digit string (the effect of parseInt base 10 on the
all-digit first segment guaranteed by the birthday pattern). -/
def digitsVal (s : JStr) : Nat :=
  s.foldl (fun a c => a * 10 + (c.toNat - ('0').toNat)) 0

/-- The year extracted by validateBirthday: parseInt of the segment before
the first dash (index.ts line 79). -/
def birthYear (b : JStr) : Nat := digitsVal ((List.splitOn '-' b).headD [])

/-- validateBirthday (index.ts lines 72-84).  maxYear stands for the value
of new Date().getFullYear() captured at module load. -/
def validateBirthday (maxYear : Nat) (b : JStr) : VRes :=
  if b.isEmpty then ⟨false, some (("Birthday is required").toList)⟩
  else if !birthdayPattern b then
    ⟨false, some (("Birthday must be in YYYY-MM-DD format").toList)⟩
  else if birthYear b < 1900 || birthYear b > maxYear then
    ⟨false, some (("Birth year must be between 1900 and ").toList
                   ++ (toString maxYear).toList)⟩
  else ⟨true, none⟩

/-! ## Credential generators -/

/-- Drop every character that is not a lowercase ASCII letter and not
whitespace: the replace with the negated letter-or-space class in the
strict generateEmail (index.ts line 88). -/
def stripNonLetters (s : JStr) : JStr :=
  s.filter (fun c => c.isLower || isJsWs c)

/-- Replace every maximal whitespace run by a single period: the replace of
the one-or-more-whitespace regex by a dot.  The boolean argument records
whether the scan is inside a whitespace run. -/
def collapseAux : JStr → Bool → JStr
  | [], _ => []
  | c :: rest, inWs =>
    if isJsWs c then
      if inWs then collapseAux rest true else '.' :: collapseAux rest true
    else c :: collapseAux rest false

/-- Replace each maximal whitespace run of a string by a period. -/
def collapseWs (s : JStr) : JStr := collapseAux s false

/-- generateEmail of the strict variant (index.ts lines 87-90):
lowercase, trim, strip non-letters, turn whitespace runs into periods,
append the fixed domain. -/
def generateEmail (name : JStr) : JStr :=
  collapseWs (stripNonLetters (jsTrim (jsToLower name))) ++ ("@company.com").toList

/-- Split a string into its whitespace-separated words (dropping empty
segments), accumulating the current word in reverse. -/
def wordsAux : JStr → JStr → List JStr
  | [], acc => if acc.isEmpty then [] else [acc.reverse]
  | c :: rest, acc =>
    if isJsWs c then
      if acc.isEmpty then wordsAux rest [] else acc.reverse :: wordsAux rest []
    else wordsAux rest (c :: acc)

/-- The whitespace-separated words of a string. -/
def wordsOf (s : JStr) : List JStr := wordsAux s []

/-- The email described by the specification sentence for claim C4, taken
literally: the name lowercased, with all non-letter characters stripped,
with its whitespace-separated words joined by a period, followed by the
fixed domain.  This definition follows the words of the spec, to be
compared against generateEmail, which embeds the code. -/
def specLiteralEmail (name : JStr) : JStr :=
  joinSep (".").toList (wordsOf (stripNonLetters (jsToLower name)))
    ++ ("@company.com").toList

/-- The password charset of generateSecurePassword (index.ts line 94). -/
def charset : JStr :=
  ("ABCDEFGHIJKLMNOPQRSTUVWXYZabcdefghijklmnopqrstuvwxyz0123456789!@#$%^&*").toList

/-- generateSecurePassword (index.ts lines 93-100).  rand models the byte
stream written by crypto.getRandomValues: rand i is the i-th random byte. -/
def generateSecurePassword (len : Nat) (rand : Nat → Nat) : JStr :=
  (List.range len).map (fun i => charset.getD (rand i % charset.length) 'A')

/-- generateEmail of the permissive variant (index.ts lines 332-335):
lowercase, trim, turn whitespace runs into periods, append the domain.
No character stripping happens in this variant. -/
def generateEmailPerm (name : JStr) : JStr :=
  collapseWs (jsTrim (jsToLower name)) ++ ("@company.com").toList

/-- generatePassword of the permissive variant (index.ts lines 338-352):
initials plus last four postal digits plus birth year plus a bang. -/
def generatePasswordPerm (name postal birthday : JStr) : JStr :=
  let parts := wordsOf (jsTrim name)
  let firstInitial :=
    match parts.headD [] with
    | c :: _ => [c.toUpper]
    | [] => ['A']
  let lastInitial :=
    match (parts.getLastD []) with
    | c :: _ => [c.toUpper]
    | [] => ['Z']
  let ds := postal.filter Char.isDigit
  let postalDigits :=
    if (ds.drop (ds.length - 4)).isEmpty then ("0000").toList
    else ds.drop (ds.length - 4)
  let year :=
    if ((List.splitOn '-' birthday).headD []).isEmpty then ("1990").toList
    else (List.splitOn '-' birthday).headD []
  firstInitial ++ lastInitial ++ postalDigits ++ year ++ ['!']

/-! ## Strict parseCSV (index.ts lines 103-193) -/

/-- A parsed CSV row of the strict variant (index.ts lines 9-13). -/
structure CSVRow where
  name : JStr
  postal_code : JStr
  birthday : JStr
deriving DecidableEq

/-- The maximum input size in bytes (index.ts line 29). -/
def maxFileSize : Nat := 5 * 1024 * 1024

/-- The maximum number of data rows (index.ts line 28). -/
def maxRows : Nat := 1000

/-- The line list of the strict parser: split the trimmed content on
newlines and keep the lines whose trimmed form is nonempty
(index.ts line 109). -/
def nonEmptyLines (content : JStr) : List JStr :=
  (List.splitOn '\n' (jsTrim content)).filter (fun l => !(jsTrim l).isEmpty)

/-- The sanitized lowercase header cells (index.ts line 121). -/
def headerCells (headerLine : JStr) : List JStr :=
  (List.splitOn ',' headerLine).map (fun h => jsToLower (sanitizeCSVValue h))

/-- The header predicate of the name column (index.ts lines 126-128). -/
def isNameHeader (h : JStr) : Bool :=
  containsSub (("name").toList) h || h == ("full_name").toList
    || h == ("fullname").toList

/-- The header predicate of the postal column (index.ts lines 129-131). -/
def isPostalHeader (h : JStr) : Bool :=
  containsSub (("postal").toList) h || containsSub (("zip").toList) h
    || h == ("postal_code").toList || h == ("postalcode").toList

/-- The header predicate of the birthday column (index.ts lines 132-134). -/
def isBirthdayHeader (h : JStr) : Bool :=
  containsSub (("birth").toList) h || containsSub (("dob").toList) h
    || h == ("birthday").toList || h == ("date_of_birth").toList

/-- The header cells of a strict-parser input. -/
def strictHeaders (content : JStr) : List JStr :=
  headerCells ((nonEmptyLines content).headD [])

/-- The resolved name column of a strict-parser input. -/
def strictNameIdx (content : JStr) : Option Nat :=
  List.findIdx? isNameHeader (strictHeaders content)

/-- The resolved postal column of a strict-parser input. -/
def strictPostalIdx (content : JStr) : Option Nat :=
  List.findIdx? isPostalHeader (strictHeaders content)

/-- The resolved birthday column of a strict-parser input. -/
def strictBirthIdx (content : JStr) : Option Nat :=
  List.findIdx? isBirthdayHeader (strictHeaders content)

/-- The description pushed for a missing name column (index.ts line 138). -/
def nameMissingDesc : JStr :=
  ("name (e.g., \x27name\x27, \x27full_name\x27, \x27fullname\x27)").toList

/-- The description pushed for a missing postal column (index.ts line 139). -/
def postalMissingDesc : JStr :=
  ("postal code (e.g., \x27postal_code\x27, \x27zip\x27, \x27postal\x27)").toList

/-- The description pushed for a missing birthday column
(index.ts line 140). -/
def birthMissingDesc : JStr :=
  ("birthday (e.g., \x27birthday\x27, \x27birth\x27, \x27dob\x27, \x27date_of_birth\x27)").toList

/-- The missing-columns error message (index.ts lines 136-144). -/
def missingColumnsMsg (headers : List JStr) (mn mp mb : Bool) : JStr :=
  let missing :=
    (if mn then [nameMissingDesc] else [])
      ++ (if mp then [postalMissingDesc] else [])
      ++ (if mb then [birthMissingDesc] else [])
  ("CSV is missing required columns: ").toList
    ++ joinSep ((", ").toList) missing
    ++ (". Found columns: ").toList
    ++ joinSep ((", ").toList) headers

/-- The sanitized fields of one data line (index.ts lines 153-156):
the line is trimmed, split on commas, and each value sanitized. -/
def lineValues (l : JStr) : List JStr :=
  (List.splitOn ',' (jsTrim l)).map sanitizeCSVValue

/-- Indexing into the field list.  A JavaScript out-of-bounds access yields
undefined; every validator rejects undefined and the empty string through
the same initial falsy check, so undefined is modelled as the empty
string. -/
def fieldAt (vals : List JStr) (i : Nat) : JStr := vals.getD i []

/-- The row a data line would contribute (index.ts lines 158-160, 181). -/
def rowOf (ni pi bi : Nat) (l : JStr) : CSVRow :=
  ⟨fieldAt (lineValues l) ni, fieldAt (lineValues l) pi,
   fieldAt (lineValues l) bi⟩

/-- The error string pushed for row i (index.ts lines 165, 171, 177). -/
def rowErrMsg (i : Nat) (msg : JStr) : JStr :=
  ("Row ").toList ++ (toString i).toList ++ (": ").toList ++ msg

/-- The outcome of validating one data line (index.ts lines 156-181):
the first failing validator yields its message, otherwise the row. -/
def rowOutcome (maxYear ni pi bi : Nat) (l : JStr) : Except JStr CSVRow :=
  let nv := validateName (fieldAt (lineValues l) ni)
  if !nv.valid then .error (nv.error.getD [])
  else
    let pv := validatePostalCode (fieldAt (lineValues l) pi)
    if !pv.valid then .error (pv.error.getD [])
    else
      let bv := validateBirthday maxYear (fieldAt (lineValues l) bi)
      if !bv.valid then .error (bv.error.getD [])
      else .ok (rowOf ni pi bi l)

/-- The row loop of the strict parser (index.ts lines 152-182), processing
the data lines in order starting at line index i: valid lines contribute
rows, lines whose trimmed form is empty are skipped, and every other line
contributes a Row-i-prefixed error. -/
def processLines (maxYear ni pi bi : Nat) : Nat → List JStr → List CSVRow × List JStr
  | _, [] => ([], [])
  | i, l :: rest =>
    if (jsTrim l).isEmpty then processLines maxYear ni pi bi (i + 1) rest
    else
      match rowOutcome maxYear ni pi bi l with
      | .ok r =>
        ((processLines maxYear ni pi bi (i + 1) rest).1.cons r,
         (processLines maxYear ni pi bi (i + 1) rest).2)
      | .error e =>
        ((processLines maxYear ni pi bi (i + 1) rest).1,
         (processLines maxYear ni pi bi (i + 1) rest).2.cons (rowErrMsg i e))

/-- The message thrown when no row survives (index.ts line 189). -/
def noValidRowsMsg (errs : List JStr) : JStr :=
  ("No valid data rows found in CSV. ").toList
    ++ (if !errs.isEmpty then
          ("Errors: ").toList ++ joinSep (("; ").toList) (errs.take 3)
        else [])

/-- parseCSV of the strict variant (index.ts lines 103-193).  Thrown
errors are modelled as the error case of Except. -/
def parseCSVStrict (maxYear : Nat) (content : JStr) : Except JStr (List CSVRow) :=
  if content.length > maxFileSize then
    .error (("CSV file is too large. Maximum size is 5MB").toList)
  else if (nonEmptyLines content).length < 2 then
    .error (("CSV must contain headers and at least one data row").toList)
  else if (nonEmptyLines content).length - 1 > maxRows then
    .error (("CSV has too many rows. Maximum is 1000 rows").toList)
  else if (strictNameIdx content).isNone || (strictPostalIdx content).isNone
      || (strictBirthIdx content).isNone then
    .error (missingColumnsMsg (strictHeaders content)
      (strictNameIdx content).isNone (strictPostalIdx content).isNone
      (strictBirthIdx content).isNone)
  else
    let pr := processLines maxYear ((strictNameIdx content).getD 0)
      ((strictPostalIdx content).getD 0) ((strictBirthIdx content).getD 0)
      1 ((nonEmptyLines content).drop 1)
    if pr.1.isEmpty then .error (noValidRowsMsg pr.2) else .ok pr.1

/-! ## Permissive parseCSV (index.ts lines 354-383) -/

/-- A row of the permissive variant.  The permissive loop stores the field
at each resolved index without a bounds check; a JavaScript out-of-bounds
access yields undefined, modelled as none. -/
structure PermRow where
  name : Option JStr
  postal_code : Option JStr
  birthday : Option JStr
deriving DecidableEq

/-- The line list of the permissive parser (index.ts line 356): split the
trimmed content on newlines, keeping blank lines. -/
def permLines (content : JStr) : List JStr :=
  List.splitOn '\n' (jsTrim content)

/-- The trimmed lowercase header cells of the permissive parser
(index.ts line 361). -/
def permHeaders (content : JStr) : List JStr :=
  (List.splitOn ',' ((permLines content).headD [])).map
    (fun h => jsToLower (jsTrim h))

/-- The resolved name column of the permissive parser (index.ts line 362). -/
def permNameIdx (content : JStr) : Option Nat :=
  List.findIdx? (fun h => containsSub (("name").toList) h) (permHeaders content)

/-- The resolved postal column of the permissive parser (index.ts line 363). -/
def permPostalIdx (content : JStr) : Option Nat :=
  List.findIdx? (fun h => containsSub (("postal").toList) h) (permHeaders content)

/-- The resolved birthday column of the permissive parser
(index.ts line 364). -/
def permBirthIdx (content : JStr) : Option Nat :=
  List.findIdx? (fun h => containsSub (("birth").toList) h) (permHeaders content)

/-- The field values of one permissive data line (index.ts line 372):
split on commas, trim each value, strip surrounding quotes. -/
def permFieldVals (l : JStr) : List JStr :=
  (List.splitOn ',' l).map (fun v => stripQuotes (jsTrim v))

/-- The row loop of the permissive parser (index.ts lines 370-380): a line
with at least three fields contributes a row whose fields are the values at
the resolved indices, possibly out of bounds. -/
def permRows (ni pi bi : Nat) : List JStr → List PermRow
  | [] => []
  | l :: rest =>
    if 3 ≤ (permFieldVals l).length then
      ⟨(permFieldVals l)[ni]?, (permFieldVals l)[pi]?, (permFieldVals l)[bi]?⟩
        :: permRows ni pi bi rest
    else permRows ni pi bi rest

/-- parseCSV of the permissive variant (index.ts lines 355-383). -/
def parseCSVPermissive (content : JStr) : Except JStr (List PermRow) :=
  if (permLines content).length < 2 then
    .error (("CSV must contain headers and at least one data row").toList)
  else if (permNameIdx content).isNone || (permPostalIdx content).isNone
      || (permBirthIdx content).isNone then
    .error (("CSV must contain \x27name\x27, \x27postal_code\x27, and \x27birthday\x27 columns").toList)
  else
    .ok (permRows ((permNameIdx content).getD 0)
      ((permPostalIdx content).getD 0) ((permBirthIdx content).getD 0)
      ((permLines content).drop 1))

/-! ## The serve handlers (index.ts lines 195-308 and 385-472) -/

/-- A generated user record (index.ts lines 15-21). -/
structure GeneratedUser where
  full_name : JStr
  postal_code : JStr
  birthday : JStr
  generated_email : JStr
  generated_password : JStr
deriving DecidableEq

/-- The request together with the answers of the external services it
consults.  authUser is the user returned by supabase.auth.getUser (none
when the call errors or yields no user); roleRow is the admin-role lookup
(error case for a query error, ok none when the caller has no admin row);
csvContent is the body field (none when absent or empty); insertFails
tells whether the database insert errors; randByte is the byte stream of
crypto.getRandomValues. -/
structure ServeEnv where
  isOptionsMethod : Bool
  authHeader : Option JStr
  authUser : Option JStr
  roleRow : Except Unit (Option Unit)
  csvContent : Option JStr
  insertFails : Bool
  randByte : Nat → Nat

/-- The observable outcome of a request: the HTTP status and the records
inserted into the imported_users table. -/
structure ServeResult where
  status : Nat
  inserted : List GeneratedUser
deriving DecidableEq

/-- The credential generation of the strict handler (index.ts lines
258-264): row k consumes bytes 16k to 16k+15 of the random stream. -/
def genUsersStrict (rows : List CSVRow) (rb : Nat → Nat) : List GeneratedUser :=
  rows.enum.map (fun p =>
    ⟨p.2.name, p.2.postal_code, p.2.birthday, generateEmail p.2.name,
     generateSecurePassword 16 (fun i => rb (16 * p.1 + i))⟩)

/-- The serve handler of the strict variant (index.ts lines 195-308).
Thrown errors become 400 responses with nothing inserted; a missing admin
role returns 403 before the body is read. -/
def strictServe (maxYear : Nat) (env : ServeEnv) : ServeResult :=
  if env.isOptionsMethod then ⟨200, []⟩
  else
    match env.authHeader with
    | none => ⟨400, []⟩
    | some _ =>
      match env.authUser with
      | none => ⟨400, []⟩
      | some _ =>
        match env.roleRow with
        | .error _ => ⟨400, []⟩
        | .ok none => ⟨403, []⟩
        | .ok (some _) =>
          match env.csvContent with
          | none => ⟨400, []⟩
          | some content =>
            match parseCSVStrict maxYear content with
            | .error _ => ⟨400, []⟩
            | .ok rows =>
              if env.insertFails then ⟨400, []⟩
              else ⟨200, genUsersStrict rows env.randByte⟩

/-- The credential generation of the permissive handler (index.ts lines
422-428).  A row with an undefined field makes the generators dereference
undefined, which throws; that is modelled as none. -/
def genUserPerm (r : PermRow) : Option GeneratedUser :=
  match r.name, r.postal_code, r.birthday with
  | some n, some p, some b =>
    some ⟨n, p, b, generateEmailPerm n, generatePasswordPerm n p b⟩
  | _, _, _ => none

/-- The serve handler of the permissive variant (index.ts lines 385-472).
It performs no role lookup at all. -/
def permissiveServe (env : ServeEnv) : ServeResult :=
  if env.isOptionsMethod then ⟨200, []⟩
  else
    match env.authHeader with
    | none => ⟨400, []⟩
    | some _ =>
      match env.authUser with
      | none => ⟨400, []⟩
      | some _ =>
        match env.csvContent with
        | none => ⟨400, []⟩
        | some content =>
          match parseCSVPermissive content with
          | .error _ => ⟨400, []⟩
          | .ok rows =>
            match rows.mapM genUserPerm with
            | none => ⟨400, []⟩
            | some users =>
              if env.insertFails then ⟨400, []⟩ else ⟨200, users⟩

/-! ## Theorems -/

/-- Every row produced by the strict row loop passed all three
validators. -/
theorem processLines_valid :
    ∀ (L : List JStr) (maxYear ni pi bi i : Nat) (r : CSVRow),
    r ∈ (processLines maxYear ni pi bi i L).1 →
    (validateName r.name).valid = true ∧
    (validatePostalCode r.postal_code).valid = true ∧
    (validateBirthday maxYear r.birthday).valid = true := by
  intro L
  induction L with
  | nil => intro maxYear ni pi bi i r hr; simp [processLines] at hr
  | cons l rest ih =>
    intro maxYear ni pi bi i r hr
    rw [processLines] at hr
    by_cases he : (jsTrim l).isEmpty
    · rw [if_pos he] at hr
      exact ih maxYear ni pi bi (i + 1) r hr
    · rw [if_neg (by simp [he])] at hr
      cases ho : rowOutcome maxYear ni pi bi l with
      | ok r0 =>
        rw [ho] at hr
        rcases List.mem_cons.mp hr with hr0 | hmem
        · subst hr0
          simp only [rowOutcome] at ho
          split at ho
          · exact absurd ho (by simp)
          · split at ho
            · exact absurd ho (by simp)
            · split at ho
              · exact absurd ho (by simp)
              · rename_i h1 h2 h3
                have hr0 : rowOf ni pi bi l = r := by
                  injection ho
                subst hr0
                refine ⟨?_, ?_, ?_⟩
                · simpa [rowOf] using h1
                · simpa [rowOf] using h2
                · simpa [rowOf] using h3
        · exact ih maxYear ni pi bi (i + 1) r hmem
      | error e =>
        rw [ho] at hr
        exact ih maxYear ni pi bi (i + 1) r hr

/-- Claim C1: every row returned by the strict validating parseCSV
satisfies all per-row checks: validateName, validatePostalCode and
validateBirthday all report valid on its fields. -/
theorem claim1_strict_rows_pass_validation
    (maxYear : Nat) (content : JStr) (rows : List CSVRow)
    (h : parseCSVStrict maxYear content = .ok rows) :
    ∀ r ∈ rows,
      (validateName r.name).valid = true ∧
      (validatePostalCode r.postal_code).valid = true ∧
      (validateBirthday maxYear r.birthday).valid = true := by
  intro r hr
  rw [parseCSVStrict] at h
  split at h
  · exact absurd h (by simp)
  · split at h
    · exact absurd h (by simp)
    · split at h
      · exact absurd h (by simp)
      · split at h
        · exact absurd h (by simp)
        · simp only [] at h
          split at h
          · exact absurd h (by simp)
          · injection h with h2
            subst h2
            exact processLines_valid _ maxYear _ _ _ _ r hr

/-- Witness for claim C1: a concrete accepted CSV whose single returned
row passes all three validators. -/
theorem claim1_witness :
    parseCSVStrict 2026 (("name,postal_code,birthday\nJohn Doe,12345,1990-01-01").toList)
      = .ok [⟨("John Doe").toList, ("12345").toList, ("1990-01-01").toList⟩]
    ∧ ∀ r ∈ [(⟨("John Doe").toList, ("12345").toList, ("1990-01-01").toList⟩ : CSVRow)],
      (validateName r.name).valid = true ∧
      (validatePostalCode r.postal_code).valid = true ∧
      (validateBirthday 2026 r.birthday).valid = true :=
  have h : parseCSVStrict 2026 (("name,postal_code,birthday\nJohn Doe,12345,1990-01-01").toList)
      = .ok [⟨("John Doe").toList, ("12345").toList, ("1990-01-01").toList⟩] := by rfl
  ⟨h, claim1_strict_rows_pass_validation 2026 _ _ h⟩

/-- Claim C6: an input over the size limit, or with more data lines than
the row limit, makes the strict parseCSV reject the whole batch with an
error, so no row is returned. -/
theorem claim6_limits_reject_batch (maxYear : Nat) (content : JStr)
    (h : content.length > maxFileSize
         ∨ (nonEmptyLines content).length - 1 > maxRows) :
    ∃ e, parseCSVStrict maxYear content = .error e := by
  rw [parseCSVStrict]
  rcases h with h1 | h2
  · rw [if_pos h1]; exact ⟨_, rfl⟩
  · by_cases h1 : content.length > maxFileSize
    · rw [if_pos h1]; exact ⟨_, rfl⟩
    · have hge : ¬ (nonEmptyLines content).length < 2 := by
        unfold maxRows at h2; omega
      rw [if_neg h1, if_neg hge, if_pos h2]; exact ⟨_, rfl⟩

/-- Witness for claim C6: an input one character over the 5 MB limit is
rejected. -/
theorem claim6_witness :
    ∃ e, parseCSVStrict 2026 (List.replicate 5242881 'a') = .error e :=
  claim6_limits_reject_batch 2026 (List.replicate 5242881 'a')
    (Or.inl (by simp only [List.length_replicate, maxFileSize]; omega))

/-- An element of a list with an in-bounds index. -/
theorem getD_mem {α : Type} :
    ∀ (l : List α) (k : Nat) (d : α), k < l.length → l.getD k d ∈ l := by
  intro l
  induction l with
  | nil => intro k d hk; simp at hk
  | cons a t ih =>
    intro k d hk
    cases k with
    | zero => simp [List.getD]
    | succ k2 =>
      simp only [List.getD_cons_succ]
      exact List.mem_cons_of_mem a (ih k2 d (by simpa using hk))

/-- A member of a joined list occurs inside the join. -/
theorem mem_joinSep :
    ∀ (l : List JStr) (sep x : JStr), x ∈ l →
    ∃ u v, joinSep sep l = u ++ (x ++ v) := by
  intro l
  induction l with
  | nil => intro sep x hx; simp at hx
  | cons a t ih =>
    intro sep x hx
    rcases List.mem_cons.mp hx with rfl | hmem
    · cases t with
      | nil => exact ⟨[], [], by simp [joinSep]⟩
      | cons b t2 =>
        exact ⟨[], sep ++ joinSep sep (b :: t2), by simp [joinSep]⟩
    · have hne : t ≠ [] := List.ne_nil_of_mem hmem
      obtain ⟨b, t2, rfl⟩ := List.exists_cons_of_ne_nil hne
      obtain ⟨u, v, huv⟩ := ih sep x hmem
      exact ⟨a ++ sep ++ u, v, by simp [joinSep, huv, List.append_assoc]⟩

/-- The missing-columns message contains the name-column description when
the name column is unresolved. -/
theorem missingMsg_has_name (headers : List JStr) (mp mb : Bool) :
    ∃ u v, missingColumnsMsg headers true mp mb = u ++ (nameMissingDesc ++ v) := by
  have hmem : nameMissingDesc ∈
      (if true then [nameMissingDesc] else [])
        ++ (if mp then [postalMissingDesc] else [])
        ++ (if mb then [birthMissingDesc] else []) := by simp
  obtain ⟨u, v, huv⟩ := mem_joinSep _ ((", ").toList) _ hmem
  refine ⟨(("CSV is missing required columns: ").toList) ++ u,
    v ++ ((". Found columns: ").toList
      ++ joinSep ((", ").toList) headers), ?_⟩
  simp at huv
  simp [missingColumnsMsg, huv, List.append_assoc]

/-- The missing-columns message contains the postal-column description when
the postal column is unresolved. -/
theorem missingMsg_has_postal (headers : List JStr) (mn mb : Bool) :
    ∃ u v, missingColumnsMsg headers mn true mb = u ++ (postalMissingDesc ++ v) := by
  have hmem : postalMissingDesc ∈
      (if mn then [nameMissingDesc] else [])
        ++ (if true then [postalMissingDesc] else [])
        ++ (if mb then [birthMissingDesc] else []) := by simp
  obtain ⟨u, v, huv⟩ := mem_joinSep _ ((", ").toList) _ hmem
  refine ⟨(("CSV is missing required columns: ").toList) ++ u,
    v ++ ((". Found columns: ").toList
      ++ joinSep ((", ").toList) headers), ?_⟩
  simp at huv
  simp [missingColumnsMsg, huv, List.append_assoc]

/-- The missing-columns message contains the birthday-column description
when the birthday column is unresolved. -/
theorem missingMsg_has_birth (headers : List JStr) (mn mp : Bool) :
    ∃ u v, missingColumnsMsg headers mn mp true = u ++ (birthMissingDesc ++ v) := by
  have hmem : birthMissingDesc ∈
      (if mn then [nameMissingDesc] else [])
        ++ (if mp then [postalMissingDesc] else [])
        ++ (if true then [birthMissingDesc] else []) := by simp
  obtain ⟨u, v, huv⟩ := mem_joinSep _ ((", ").toList) _ hmem
  refine ⟨(("CSV is missing required columns: ").toList) ++ u,
    v ++ ((". Found columns: ").toList
      ++ joinSep ((", ").toList) headers), ?_⟩
  simp at huv
  simp [missingColumnsMsg, huv, List.append_assoc]

/-- Claim C8: when the header of a within-limits CSV leaves the name,
postal or birthday column unresolved, the strict parseCSV rejects the
whole batch, and the error message contains the description naming each
missing column. -/
theorem claim8_missing_columns_named (maxYear : Nat) (content : JStr)
    (hsize : ¬ content.length > maxFileSize)
    (hlen : ¬ (nonEmptyLines content).length < 2)
    (hcount : ¬ (nonEmptyLines content).length - 1 > maxRows)
    (hmiss : strictNameIdx content = none ∨ strictPostalIdx content = none
             ∨ strictBirthIdx content = none) :
    ∃ msg, parseCSVStrict maxYear content = .error msg
      ∧ (strictNameIdx content = none →
          ∃ u v, msg = u ++ (nameMissingDesc ++ v))
      ∧ (strictPostalIdx content = none →
          ∃ u v, msg = u ++ (postalMissingDesc ++ v))
      ∧ (strictBirthIdx content = none →
          ∃ u v, msg = u ++ (birthMissingDesc ++ v)) := by
  have hcond : ((strictNameIdx content).isNone || (strictPostalIdx content).isNone
      || (strictBirthIdx content).isNone) = true := by
    rcases hmiss with h | h | h <;> simp [h]
  rw [parseCSVStrict, if_neg hsize, if_neg hlen, if_neg hcount, if_pos hcond]
  refine ⟨_, rfl, ?_, ?_, ?_⟩
  · intro h
    simp only [h, Option.isNone_none]
    exact missingMsg_has_name _ _ _
  · intro h
    simp only [h, Option.isNone_none]
    exact missingMsg_has_postal _ _ _
  · intro h
    simp only [h, Option.isNone_none]
    exact missingMsg_has_birth _ _ _

/-- Witness for claim C8: a CSV whose header resolves none of the three
columns is rejected with a message naming all three. -/
theorem claim8_witness :
    ∃ msg, parseCSVStrict 2026 (("foo,bar\nx,y").toList) = .error msg
      ∧ (strictNameIdx (("foo,bar\nx,y").toList) = none →
          ∃ u v, msg = u ++ (nameMissingDesc ++ v))
      ∧ (strictPostalIdx (("foo,bar\nx,y").toList) = none →
          ∃ u v, msg = u ++ (postalMissingDesc ++ v))
      ∧ (strictBirthIdx (("foo,bar\nx,y").toList) = none →
          ∃ u v, msg = u ++ (birthMissingDesc ++ v)) :=
  claim8_missing_columns_named 2026 (("foo,bar\nx,y").toList)
    (by decide) (by decide) (by decide) (Or.inl (by decide))

/-- A birthday matching the strict pattern is nonempty. -/
theorem birthdayPattern_ne_empty (b : JStr) (h : birthdayPattern b = true) :
    b.isEmpty = false := by
  cases b with
  | nil => simp [birthdayPattern] at h
  | cons c t => simp

/-- A pattern-shaped birthday whose year falls outside the accepted range
is rejected by validateBirthday. -/
theorem validateBirthday_bad_year (maxYear : Nat) (b : JStr)
    (hpat : birthdayPattern b = true)
    (hyear : birthYear b < 1900 ∨ birthYear b > maxYear) :
    (validateBirthday maxYear b).valid = false := by
  rw [validateBirthday]
  rw [if_neg (by simp [birthdayPattern_ne_empty b hpat])]
  rw [if_neg (by simp [hpat])]
  rw [if_pos (by rcases hyear with h | h <;> simp [h])]

/-- A line whose birthday field fails validation never yields a row. -/
theorem rowOutcome_error_of_bad_birthday (maxYear ni pi bi : Nat) (l : JStr)
    (hb : (validateBirthday maxYear (fieldAt (lineValues l) bi)).valid = false) :
    ∃ e, rowOutcome maxYear ni pi bi l = .error e := by
  rw [rowOutcome]
  simp only []
  split
  · exact ⟨_, rfl⟩
  · split
    · exact ⟨_, rfl⟩
    · split
      · exact ⟨_, rfl⟩
      · rename_i h3
        rw [hb] at h3
        simp at h3

/-- A data line at an in-bounds position whose trimmed form is nonempty and
whose outcome is an error contributes a Row-indexed error message to the
error list of the strict row loop. -/
theorem processLines_err :
    ∀ (L : List JStr) (maxYear ni pi bi i j : Nat),
    j < L.length →
    (jsTrim (L.getD j [])).isEmpty = false →
    ∀ e, rowOutcome maxYear ni pi bi (L.getD j []) = .error e →
    rowErrMsg (i + j) e ∈ (processLines maxYear ni pi bi i L).2 := by
  intro L
  induction L with
  | nil => intro maxYear ni pi bi i j hj; simp at hj
  | cons l rest ih =>
    intro maxYear ni pi bi i j hj hne e he
    cases j with
    | zero =>
      simp only [List.getD_cons_zero] at hne he
      rw [processLines, if_neg (by simp [hne]), he]
      simp
    | succ j2 =>
      simp only [List.getD_cons_succ] at hne he
      have hmem := ih maxYear ni pi bi (i + 1) j2 (by simpa using hj) hne e he
      have harith : i + 1 + j2 = i + (j2 + 1) := by omega
      rw [harith] at hmem
      rw [processLines]
      by_cases hemp : (jsTrim l).isEmpty
      · rw [if_pos hemp]; exact hmem
      · rw [if_neg (by simp [hemp])]
        cases ho : rowOutcome maxYear ni pi bi l with
        | ok r0 => exact hmem
        | error e0 => exact List.mem_cons_of_mem _ hmem

/-- Claim C7: in a within-limits CSV with resolved columns, a data line
whose birthday field is pattern-shaped but has a year outside the range
from 1900 to the current year is excluded from the returned rows, and an
error indexed by its row number is recorded; the strict parseCSV throws
exactly when zero data rows survive, and otherwise returns the surviving
rows. -/
theorem claim7_bad_year_row_excluded
    (maxYear : Nat) (content : JStr) (ni pi bi j : Nat)
    (hsize : ¬ content.length > maxFileSize)
    (hlen : ¬ (nonEmptyLines content).length < 2)
    (hcount : ¬ (nonEmptyLines content).length - 1 > maxRows)
    (hni : strictNameIdx content = some ni)
    (hpi : strictPostalIdx content = some pi)
    (hbi : strictBirthIdx content = some bi)
    (hj : j < ((nonEmptyLines content).drop 1).length)
    (hpat : birthdayPattern
      (fieldAt (lineValues (((nonEmptyLines content).drop 1).getD j [])) bi) = true)
    (hyear : birthYear
        (fieldAt (lineValues (((nonEmptyLines content).drop 1).getD j [])) bi) < 1900
      ∨ birthYear
        (fieldAt (lineValues (((nonEmptyLines content).drop 1).getD j [])) bi) > maxYear) :
    rowOf ni pi bi (((nonEmptyLines content).drop 1).getD j [])
        ∉ (processLines maxYear ni pi bi 1 ((nonEmptyLines content).drop 1)).1
    ∧ (∃ msg, rowErrMsg (1 + j) msg
        ∈ (processLines maxYear ni pi bi 1 ((nonEmptyLines content).drop 1)).2)
    ∧ ((processLines maxYear ni pi bi 1 ((nonEmptyLines content).drop 1)).1 = [] →
        ∃ e, parseCSVStrict maxYear content = .error e)
    ∧ ((processLines maxYear ni pi bi 1 ((nonEmptyLines content).drop 1)).1 ≠ [] →
        parseCSVStrict maxYear content
          = .ok (processLines maxYear ni pi bi 1 ((nonEmptyLines content).drop 1)).1) := by
  have hbad : (validateBirthday maxYear
      (fieldAt (lineValues (((nonEmptyLines content).drop 1).getD j [])) bi)).valid = false :=
    validateBirthday_bad_year maxYear _ hpat hyear
  have hcond : ((strictNameIdx content).isNone || (strictPostalIdx content).isNone
      || (strictBirthIdx content).isNone) = false := by
    simp [hni, hpi, hbi]
  have hpcs : parseCSVStrict maxYear content
      = (if (processLines maxYear ni pi bi 1 ((nonEmptyLines content).drop 1)).1.isEmpty
         then .error (noValidRowsMsg
           (processLines maxYear ni pi bi 1 ((nonEmptyLines content).drop 1)).2)
         else .ok (processLines maxYear ni pi bi 1 ((nonEmptyLines content).drop 1)).1) := by
    rw [parseCSVStrict, if_neg hsize, if_neg hlen, if_neg hcount,
      if_neg (by simp [hcond])]
    simp only [hni, hpi, hbi, Option.getD_some]
  refine ⟨?_, ?_, ?_, ?_⟩
  · intro hmem
    have hvalid := processLines_valid _ maxYear ni pi bi 1 _ hmem
    have : (validateBirthday maxYear
        (fieldAt (lineValues (((nonEmptyLines content).drop 1).getD j [])) bi)).valid = true := by
      simpa [rowOf] using hvalid.2.2
    rw [hbad] at this
    exact absurd this (by simp)
  · have hline : ((nonEmptyLines content).drop 1).getD j [] ∈ nonEmptyLines content := by
      have h1 : ((nonEmptyLines content).drop 1).getD j [] ∈ (nonEmptyLines content).drop 1 :=
        getD_mem _ j [] hj
      exact List.drop_subset 1 _ h1
    have hne : (jsTrim (((nonEmptyLines content).drop 1).getD j [])).isEmpty = false := by
      have := (List.mem_filter.mp hline).2
      simpa using this
    obtain ⟨e, he⟩ := rowOutcome_error_of_bad_birthday maxYear ni pi bi _ hbad
    exact ⟨e, processLines_err _ maxYear ni pi bi 1 j hj hne e he⟩
  · intro hempty
    rw [hpcs, if_pos (by simpa using hempty)]
    exact ⟨_, rfl⟩
  · intro hnonempty
    rw [hpcs, if_neg (by simpa using hnonempty)]

/-- A concrete CSV whose first data row has a year below 1900 and whose
second data row is valid. -/
def sampleBadYearCSV : JStr :=
  ("name,postal,birth\nJo,1,1700-01-01\nAl,2,1990-01-01").toList

/-- Witness for claim C7: in the sample CSV the out-of-range row is
excluded, an error is recorded for it, and the parse succeeds with the
surviving row. -/
theorem claim7_witness :
    rowOf 0 1 2 (((nonEmptyLines sampleBadYearCSV).drop 1).getD 0 [])
        ∉ (processLines 2026 0 1 2 1 ((nonEmptyLines sampleBadYearCSV).drop 1)).1
    ∧ (∃ msg, rowErrMsg (1 + 0) msg
        ∈ (processLines 2026 0 1 2 1 ((nonEmptyLines sampleBadYearCSV).drop 1)).2)
    ∧ ((processLines 2026 0 1 2 1 ((nonEmptyLines sampleBadYearCSV).drop 1)).1 = [] →
        ∃ e, parseCSVStrict 2026 sampleBadYearCSV = .error e)
    ∧ ((processLines 2026 0 1 2 1 ((nonEmptyLines sampleBadYearCSV).drop 1)).1 ≠ [] →
        parseCSVStrict 2026 sampleBadYearCSV
          = .ok (processLines 2026 0 1 2 1 ((nonEmptyLines sampleBadYearCSV).drop 1)).1) :=
  claim7_bad_year_row_excluded 2026 sampleBadYearCSV 0 1 2 0
    (by decide) (by decide) (by decide) (by decide) (by decide) (by decide)
    (by decide) (by decide) (Or.inl (by decide))

/-- Counterexample for claim C9: sanitizeCSVValue removes only one leading
character, so an input starting with two dashes still yields a value that
begins with a formula-injection character. -/
theorem claim9_counterexample :
    sanitizeCSVValue (("--x").toList) = ("-x").toList
    ∧ startsWithFormula (sanitizeCSVValue (("--x").toList)) = true := by
  decide

/-- Claim C9 (amended): the value returned by sanitizeCSVValue does not
begin with a formula-injection character provided the trimmed,
quote-stripped input does not have a formula-injection character in its
second position; only one leading such character is removed. -/
theorem claim9_amended (s : JStr)
    (h : startsWithFormula ((sanitizeBase s).drop 1) = false) :
    startsWithFormula (sanitizeCSVValue s) = false := by
  rw [sanitizeCSVValue]
  split
  · exact h
  · rename_i hf
    simpa using hf

/-- Witness for claim C9: a single leading equals sign is removed and the
result is formula-safe. -/
theorem claim9_witness :
    startsWithFormula ((sanitizeBase (("=cmd").toList)).drop 1) = false
    ∧ startsWithFormula (sanitizeCSVValue (("=cmd").toList)) = false :=
  ⟨by decide, claim9_amended _ (by decide)⟩

/-- Counterexample for claim C5: generateEmail is not idempotent, because
a second application strips the at sign and the periods of the domain. -/
theorem claim5_counterexample :
    generateEmail (generateEmail (("a").toList)) ≠ generateEmail (("a").toList) := by
  decide

/-- Claim C5 (amended): generateEmail is deterministic, equal name inputs
yield equal outputs; the idempotence half of the original claim is false. -/
theorem claim5_amended (a b : JStr) (h : a = b) :
    generateEmail a = generateEmail b := by rw [h]

/-- Witness for claim C5: determinism at a concrete name. -/
theorem claim5_witness :
    ("a").toList = ("a").toList
    ∧ generateEmail (("a").toList) = generateEmail (("a").toList) :=
  ⟨rfl, claim5_amended _ _ rfl⟩

set_option maxRecDepth 4000 in
/-- Counterexample for claim C3: feeding each byte value exactly once
shows the first charset character is selected four times but the last only
three times, so the byte-to-character mapping is not uniform: 256 is not a
multiple of the 70-character charset. -/
theorem claim3_counterexample :
    (generateSecurePassword 256 (fun i => i)).count 'A' = 4
    ∧ (generateSecurePassword 256 (fun i => i)).count '*' = 3
    ∧ (generateSecurePassword 256 (fun i => i)).count 'A'
        ≠ (generateSecurePassword 256 (fun i => i)).count '*' := by
  decide

set_option maxRecDepth 4000 in
/-- Claim C3 (amended): generateSecurePassword returns exactly the
requested number of characters, each drawn from the fixed charset; the
selection by byte modulo charset length is only approximately uniform:
the 46 charset positions below 46 have four byte preimages each and the
remaining 24 have three. -/
theorem claim3_amended (len : Nat) (rand : Nat → Nat) :
    (generateSecurePassword len rand).length = len
    ∧ (∀ c, c ∈ generateSecurePassword len rand → c ∈ charset)
    ∧ (List.range 70).map
        (fun i => ((List.range 256).filter (fun b => b % charset.length == i)).length)
      = List.replicate 46 4 ++ List.replicate 24 3 := by
  refine ⟨?_, ?_, ?_⟩
  · simp [generateSecurePassword]
  · intro c hc
    simp only [generateSecurePassword, List.mem_map] at hc
    obtain ⟨i, _, rfl⟩ := hc
    exact getD_mem charset _ 'A' (Nat.mod_lt _ (by decide))
  · decide

/-- Witness for claim C3: a four-byte stream of zeros yields four
characters, and the selected character belongs to the charset. -/
theorem claim3_witness :
    (generateSecurePassword 4 (fun _ => 0)).length = 4 ∧ 'A' ∈ charset :=
  ⟨(claim3_amended 4 (fun _ => 0)).1,
   (claim3_amended 4 (fun _ => 0)).2.1 'A' (by decide)⟩

/-- Every row of the permissive loop originates from a line with at least
three fields, its fields read at the resolved indices. -/
theorem permRows_origin :
    ∀ (L : List JStr) (ni pi bi : Nat) (r : PermRow), r ∈ permRows ni pi bi L →
    ∃ l, l ∈ L ∧ 3 ≤ (permFieldVals l).length
      ∧ r = ⟨(permFieldVals l)[ni]?, (permFieldVals l)[pi]?,
             (permFieldVals l)[bi]?⟩ := by
  intro L
  induction L with
  | nil => intro ni pi bi r hr; simp [permRows] at hr
  | cons l rest ih =>
    intro ni pi bi r hr
    rw [permRows] at hr
    by_cases hlen : 3 ≤ (permFieldVals l).length
    · rw [if_pos hlen] at hr
      rcases List.mem_cons.mp hr with rfl | hmem
      · exact ⟨l, List.mem_cons_self l rest, hlen, rfl⟩
      · obtain ⟨l2, hl2, h3, hrw⟩ := ih ni pi bi r hmem
        exact ⟨l2, List.mem_cons_of_mem l hl2, h3, hrw⟩
    · rw [if_neg hlen] at hr
      obtain ⟨l2, hl2, h3, hrw⟩ := ih ni pi bi r hr
      exact ⟨l2, List.mem_cons_of_mem l hl2, h3, hrw⟩

/-- Claim C10 (amended): every row returned by the permissive parseCSV
comes from a data line with at least three comma-split fields, so a field
at a resolved column index below three is always present; a resolved index
of three or more may fall outside the bounds of the field list of the
line, in which case the stored field is undefined. -/
theorem claim10_amended (content : JStr) (rows : List PermRow) (ni pi bi : Nat)
    (hok : parseCSVPermissive content = .ok rows)
    (hni : permNameIdx content = some ni)
    (hpi : permPostalIdx content = some pi)
    (hbi : permBirthIdx content = some bi) :
    ∀ r ∈ rows, (ni < 3 → r.name.isSome = true)
      ∧ (pi < 3 → r.postal_code.isSome = true)
      ∧ (bi < 3 → r.birthday.isSome = true) := by
  intro r hr
  rw [parseCSVPermissive] at hok
  split at hok
  · exact absurd hok (by simp)
  · split at hok
    · exact absurd hok (by simp)
    · injection hok with h2
      subst h2
      simp only [hni, hpi, hbi, Option.getD_some] at hr
      obtain ⟨l, _, hlen, rfl⟩ := permRows_origin _ ni pi bi r hr
      refine ⟨?_, ?_, ?_⟩ <;> intro hlt
      · have hb : ni < (permFieldVals l).length := lt_of_lt_of_le hlt hlen
        simp [List.getElem?_eq_getElem hb]
      · have hb : pi < (permFieldVals l).length := lt_of_lt_of_le hlt hlen
        simp [List.getElem?_eq_getElem hb]
      · have hb : bi < (permFieldVals l).length := lt_of_lt_of_le hlt hlen
        simp [List.getElem?_eq_getElem hb]

/-- Counterexample for claim C10: a header with four columns resolves the
birthday column at index three, and a three-field data line is still
accepted, so the returned row has an undefined birthday field. -/
theorem claim10_counterexample :
    parseCSVPermissive (("x,name,postal,birth\n1,2,3").toList)
      = .ok [⟨some (("2").toList), some (("3").toList), none⟩]
    ∧ (⟨some (("2").toList), some (("3").toList), none⟩ : PermRow).birthday
        = none :=
  ⟨by rfl, rfl⟩

/-- Witness for claim C10: a three-column permissive CSV has all resolved
indices below three, and its returned row has every field present. -/
theorem claim10_witness :
    (⟨some (("a").toList), some (("b").toList), some (("c").toList)⟩ : PermRow).name.isSome = true
    ∧ (⟨some (("a").toList), some (("b").toList), some (("c").toList)⟩ : PermRow).postal_code.isSome = true
    ∧ (⟨some (("a").toList), some (("b").toList), some (("c").toList)⟩ : PermRow).birthday.isSome = true :=
  have h := claim10_amended (("name,postal,birth\na,b,c").toList)
    [⟨some (("a").toList), some (("b").toList), some (("c").toList)⟩]
    0 1 2 (by rfl) (by rfl) (by rfl) (by rfl)
    (⟨some (("a").toList), some (("b").toList), some (("c").toList)⟩ : PermRow)
    (by simp)
  ⟨h.1 (by decide), h.2.1 (by decide), h.2.2 (by decide)⟩

/-- The request of an authenticated caller without the admin role, with a
well-formed body, used by the claim C2 theorems. -/
def serveEnvNonAdmin : ServeEnv :=
  ⟨false, some (("Bearer t").toList), some (("u1").toList), .ok none,
   some (("name,postal,birth\nJo,11,1990-01-01").toList), false, fun _ => 0⟩

/-- Claim C2 (amended): in the strict variant, every authenticated request
whose caller lacks the admin role receives status 403 and nothing is
inserted, regardless of the CSV content; the permissive variant performs
no role check at all and proceeds for any authenticated caller. -/
theorem claim2_strict_non_admin_403 (maxYear : Nat) (env : ServeEnv)
    (hopt : env.isOptionsMethod = false)
    (hhdr : env.authHeader.isSome = true)
    (huser : env.authUser.isSome = true)
    (hrole : env.roleRow = .ok none) :
    strictServe maxYear env = ⟨403, []⟩ := by
  obtain ⟨h, hh⟩ := Option.isSome_iff_exists.mp hhdr
  obtain ⟨u, hu⟩ := Option.isSome_iff_exists.mp huser
  simp [strictServe, hopt, hh, hu, hrole]

/-- Witness for claim C2: a concrete authenticated non-admin request gets
a 403 from the strict handler with nothing inserted. -/
theorem claim2_witness : strictServe 2026 serveEnvNonAdmin = ⟨403, []⟩ :=
  claim2_strict_non_admin_403 2026 serveEnvNonAdmin rfl rfl rfl rfl

/-- Counterexample for claim C2: the permissive serve variant, also cited
by the claim, performs no role check: the same authenticated non-admin
request is answered with 200 and records are inserted. -/
theorem claim2_counterexample :
    (permissiveServe serveEnvNonAdmin).status = 200
    ∧ (permissiveServe serveEnvNonAdmin).inserted ≠ [] := by
  refine ⟨by rfl, by decide⟩

/-! ## Claim C4: the email formula -/

/-- A string with no leading and no trailing whitespace. -/
def boundaryClean (s : JStr) : Bool :=
  s.head?.all (fun c => !isJsWs c) && s.getLast?.all (fun c => !isJsWs c)

/-- The head of a boundary-clean string is not whitespace. -/
theorem clean_head (s : JStr) (h : boundaryClean s = true) :
    ∀ c, s.head? = some c → isJsWs c = false := by
  intro c hc
  rw [boundaryClean, Bool.and_eq_true] at h
  have h1 := h.1
  rw [hc] at h1
  simpa using h1

/-- The last character of a boundary-clean string is not whitespace. -/
theorem clean_last (s : JStr) (h : boundaryClean s = true) :
    ∀ c, s.getLast? = some c → isJsWs c = false := by
  intro c hc
  rw [boundaryClean, Bool.and_eq_true] at h
  have h1 := h.2
  rw [hc] at h1
  simpa using h1

/-- dropWhile is the identity when the head fails the predicate. -/
theorem dropWhile_id_of_head (p : Char → Bool) (s : JStr)
    (h : ∀ c, s.head? = some c → p c = false) : s.dropWhile p = s := by
  cases s with
  | nil => rfl
  | cons a t => rw [List.dropWhile_cons, if_neg (by simp [h a rfl])]

/-- Trimming a boundary-clean string changes nothing. -/
theorem trim_of_clean (s : JStr) (h : boundaryClean s = true) : jsTrim s = s := by
  rw [jsTrim]
  rw [dropWhile_id_of_head isJsWs s (clean_head s h)]
  rw [dropWhile_id_of_head isJsWs s.reverse
    (by intro c hc; exact clean_last s h c (by rwa [List.head?_reverse] at hc))]
  exact List.reverse_reverse s

/-- A whitespace head survives the non-letter strip. -/
theorem strip_head_ws (x : JStr) (c : Char) (hc : x.head? = some c)
    (hw : isJsWs c = true) : (stripNonLetters x).head? = some c := by
  cases x with
  | nil => simp at hc
  | cons a t =>
    have : a = c := by simpa using hc
    subst this
    simp [stripNonLetters, List.filter_cons, hw]

/-- If the non-letter strip of a string is boundary clean, the string
itself is boundary clean: boundary whitespace survives the strip. -/
theorem clean_of_strip_clean (x : JStr)
    (h : boundaryClean (stripNonLetters x) = true) : boundaryClean x = true := by
  have hh : ∀ c, x.head? = some c → isJsWs c = false := by
    intro c hc
    by_cases hw : isJsWs c = true
    · have hs := strip_head_ws x c hc hw
      have := clean_head _ h c hs
      rw [this] at hw
      exact absurd hw (by simp)
    · simpa using hw
  have hl : ∀ c, x.getLast? = some c → isJsWs c = false := by
    intro c hc
    have hcrev : x.reverse.head? = some c := by
      rw [List.head?_reverse]; exact hc
    by_cases hw : isJsWs c = true
    · have hs := strip_head_ws x.reverse c hcrev hw
      have hcomm : stripNonLetters x.reverse = (stripNonLetters x).reverse := by
        simp [stripNonLetters, List.filter_reverse]
      rw [hcomm, List.head?_reverse] at hs
      have := clean_last _ h c hs
      rw [this] at hw
      exact absurd hw (by simp)
    · simpa using hw
  rw [boundaryClean, Bool.and_eq_true]
  refine ⟨?_, ?_⟩
  · cases hx : x.head? with
    | none => simp
    | some c => simp [hh c hx]
  · cases hx : x.getLast? with
    | none => simp
    | some c => simp [hl c hx]

/-- Collapsing skips over a non-whitespace prefix unchanged. -/
theorem collapseAux_nonws_front :
    ∀ (w z : JStr), (∀ c ∈ w, isJsWs c = false) →
    collapseAux (w ++ z) false = w ++ collapseAux z false := by
  intro w
  induction w with
  | nil => intro z _; rfl
  | cons a t ih =>
    intro z hall
    have ha : isJsWs a = false := hall a (by simp)
    rw [List.cons_append, collapseAux, if_neg (by simp [ha])]
    rw [ih z (fun c hc => hall c (List.mem_cons_of_mem a hc))]
    rfl

/-- Inside a whitespace run, collapsing skips further whitespace. -/
theorem collapseAux_ws_skip :
    ∀ (u z : JStr), (∀ c ∈ u, isJsWs c = true) →
    collapseAux (u ++ z) true = collapseAux z true := by
  intro u
  induction u with
  | nil => intro z _; rfl
  | cons a t ih =>
    intro z hall
    have ha : isJsWs a = true := hall a (by simp)
    rw [List.cons_append, collapseAux, if_pos ha]
    exact ih z (fun c hc => hall c (List.mem_cons_of_mem a hc))

/-- The two collapse modes agree on a string with a non-whitespace head. -/
theorem collapseAux_true_of_head (z : JStr)
    (h : ∀ c, z.head? = some c → isJsWs c = false) :
    collapseAux z true = collapseAux z false := by
  cases z with
  | nil => rfl
  | cons c t =>
    have := h c rfl
    rw [collapseAux, collapseAux, if_neg (by simp [this]), if_neg (by simp [this])]

/-- The word splitter accumulates a non-whitespace prefix. -/
theorem wordsAux_nonws_front :
    ∀ (w z acc : JStr), (∀ c ∈ w, isJsWs c = false) →
    wordsAux (w ++ z) acc = wordsAux z (w.reverse ++ acc) := by
  intro w
  induction w with
  | nil => intro z acc _; rfl
  | cons a t ih =>
    intro z acc hall
    have ha : isJsWs a = false := hall a (by simp)
    rw [List.cons_append, wordsAux, if_neg (by simp [ha])]
    rw [ih z (a :: acc) (fun c hc => hall c (List.mem_cons_of_mem a hc))]
    simp

/-- With an empty accumulator the word splitter skips whitespace. -/
theorem wordsAux_ws_skip :
    ∀ (u z : JStr), (∀ c ∈ u, isJsWs c = true) →
    wordsAux (u ++ z) [] = wordsAux z [] := by
  intro u
  induction u with
  | nil => intro z _; rfl
  | cons a t ih =>
    intro z hall
    have ha : isJsWs a = true := hall a (by simp)
    rw [List.cons_append, wordsAux, if_pos ha, if_pos (by simp)]
    exact ih z (fun c hc => hall c (List.mem_cons_of_mem a hc))

/-- The word splitter never returns an empty list once a character has
been accumulated. -/
theorem wordsAux_ne_nil :
    ∀ (z : JStr) (a : Char) (acc : JStr), wordsAux z (a :: acc) ≠ [] := by
  intro z
  induction z with
  | nil => intro a acc; simp [wordsAux]
  | cons c t ih =>
    intro a acc
    rw [wordsAux]
    by_cases hc : isJsWs c = true
    · rw [if_pos hc, if_neg (by simp)]
      simp
    · rw [if_neg hc]
      exact ih c (a :: acc)

/-- Every element of a takeWhile result satisfies the predicate. -/
theorem mem_takeWhile_p (p : Char → Bool) :
    ∀ (l : JStr), ∀ x ∈ l.takeWhile p, p x = true := by
  intro l
  induction l with
  | nil => simp
  | cons a t ih =>
    intro x hx
    rw [List.takeWhile_cons] at hx
    by_cases hpa : p a = true
    · rw [if_pos hpa] at hx
      rcases List.mem_cons.mp hx with rfl | hx2
      · exact hpa
      · exact ih x hx2
    · rw [if_neg hpa] at hx
      simp at hx

/-- When dropWhile leaves nothing, every element satisfies the predicate. -/
theorem all_of_dropWhile_nil (p : Char → Bool) :
    ∀ (l : JStr), l.dropWhile p = [] → ∀ x ∈ l, p x = true := by
  intro l
  induction l with
  | nil => simp
  | cons a t ih =>
    intro hd x hx
    rw [List.dropWhile_cons] at hd
    by_cases hpa : p a = true
    · rw [if_pos hpa] at hd
      rcases List.mem_cons.mp hx with rfl | hx2
      · exact hpa
      · exact ih hd x hx2
    · rw [if_neg hpa] at hd
      simp at hd

/-- The head of a dropWhile result fails the predicate. -/
theorem head_dropWhile_false (p : Char → Bool) :
    ∀ (l : JStr) (d : Char) (r : JStr), l.dropWhile p = d :: r → p d = false := by
  intro l
  induction l with
  | nil => intro d r h; simp at h
  | cons a t ih =>
    intro d r h
    rw [List.dropWhile_cons] at h
    by_cases hpa : p a = true
    · rw [if_pos hpa] at h
      exact ih d r h
    · rw [if_neg hpa] at h
      injection h with h1 h2
      subst h1
      simpa using hpa

/-- The last element of an append with a nonempty right part. -/
theorem getLast_append_ne (x y : JStr) (hy : y ≠ []) :
    (x ++ y).getLast? = y.getLast? := by
  induction x with
  | nil => rfl
  | cons a t ih =>
    cases hty : t ++ y with
    | nil => exact absurd (List.append_eq_nil.mp hty).2 hy
    | cons b t2 =>
      rw [List.cons_append, hty, List.getLast?_cons_cons, ← hty, ih]

/-- A nonempty list has a last element, and it is a member. -/
theorem exists_getLast_mem :
    ∀ (l : JStr), l ≠ [] → ∃ x, l.getLast? = some x ∧ x ∈ l := by
  intro l
  induction l with
  | nil => simp
  | cons a t ih =>
    intro _
    cases t with
    | nil => exact ⟨a, by simp, by simp⟩
    | cons b t2 =>
      obtain ⟨x, hx1, hx2⟩ := ih (by simp)
      exact ⟨x, by rw [List.getLast?_cons_cons]; exact hx1,
        List.mem_cons_of_mem a hx2⟩

/-- On a boundary-clean string, replacing each maximal whitespace run by a
period agrees with joining the whitespace-separated words with periods. -/
theorem collapse_words_core :
    ∀ (n : Nat) (t : JStr), t.length ≤ n → boundaryClean t = true →
    collapseAux t false = joinSep ((".").toList) (wordsAux t []) := by
  intro n
  induction n with
  | zero =>
    intro t ht _
    have : t = [] := List.length_eq_zero.mp (Nat.le_zero.mp ht)
    subst this
    rfl
  | succ n ih =>
    intro t ht hclean
    cases t with
    | nil => rfl
    | cons c r =>
      have hc : isJsWs c = false := clean_head _ hclean c rfl
      have hw2 : ∀ x ∈ r.takeWhile (fun x => !isJsWs x), isJsWs x = false := by
        intro x hx
        have := mem_takeWhile_p (fun x => !isJsWs x) r x hx
        simpa using this
      have hsplitr : r.takeWhile (fun x => !isJsWs x)
          ++ r.dropWhile (fun x => !isJsWs x) = r :=
        List.takeWhile_append_dropWhile _ _
      cases hrest : r.dropWhile (fun x => !isJsWs x) with
      | nil =>
        have hr_eq : r.takeWhile (fun x => !isJsWs x) = r := by
          rw [hrest, List.append_nil] at hsplitr
          exact hsplitr
        have hall : ∀ x ∈ c :: r, isJsWs x = false := by
          intro x hx
          rcases List.mem_cons.mp hx with rfl | hx2
          · exact hc
          · exact hw2 x (by rw [hr_eq]; exact hx2)
        have hL : collapseAux (c :: r) false = c :: r := by
          have h1 := collapseAux_nonws_front (c :: r) [] hall
          simpa [collapseAux] using h1
        have hW : wordsAux (c :: r) [] = [c :: r] := by
          have h1 := wordsAux_nonws_front (c :: r) [] [] hall
          rw [List.append_nil, List.append_nil] at h1
          rw [h1, wordsAux, if_neg (by simp)]
          simp
        rw [hL, hW]
        rfl
      | cons d r2 =>
        have hd : isJsWs d = true := by
          have := head_dropWhile_false (fun x => !isJsWs x) r d r2 hrest
          simpa using this
        have hreq : r = r.takeWhile (fun x => !isJsWs x) ++ (d :: r2) := by
          rw [← hrest]
          exact hsplitr.symm
        have hcr : c :: r = (c :: r.takeWhile (fun x => !isJsWs x)) ++ (d :: r2) := by
          conv_lhs => rw [hreq]
          rw [List.cons_append]
        have hallw : ∀ x ∈ c :: r.takeWhile (fun x => !isJsWs x), isJsWs x = false := by
          intro x hx
          rcases List.mem_cons.mp hx with rfl | hx2
          · exact hc
          · exact hw2 x hx2
        cases hr3 : r2.dropWhile isJsWs with
        | nil =>
          exfalso
          have hall_ws : ∀ x ∈ d :: r2, isJsWs x = true := by
            intro x hx
            rcases List.mem_cons.mp hx with rfl | hx2
            · exact hd
            · exact all_of_dropWhile_nil isJsWs r2 hr3 x hx2
          obtain ⟨x, hx1, hx2⟩ := exists_getLast_mem (d :: r2) (by simp)
          have h1 : (c :: r).getLast? = r.getLast? :=
            getLast_append_ne [c] r (by rw [hreq]; simp)
          have h2 : r.getLast? = (d :: r2).getLast? := by
            conv_lhs => rw [hreq]
            exact getLast_append_ne _ _ (by simp)
          have hws := clean_last _ hclean x (h1.trans (h2.trans hx1))
          rw [hall_ws x hx2] at hws
          exact absurd hws (by simp)
        | cons e r4 =>
          have he : isJsWs e = false := head_dropWhile_false isJsWs r2 e r4 hr3
          have hu2 : ∀ x ∈ r2.takeWhile isJsWs, isJsWs x = true :=
            mem_takeWhile_p isJsWs r2
          have hr2eq : r2 = r2.takeWhile isJsWs ++ (e :: r4) := by
            rw [← hr3]
            exact (List.takeWhile_append_dropWhile _ _).symm
          have hheadE : ∀ x, (e :: r4).head? = some x → isJsWs x = false := by
            intro x hx
            have hex : e = x := by simpa using hx
            subst hex
            exact he
          have hclean4 : boundaryClean (e :: r4) = true := by
            rw [boundaryClean, Bool.and_eq_true]
            refine ⟨by simp [he], ?_⟩
            obtain ⟨x, hx1, hx2⟩ := exists_getLast_mem (e :: r4) (by simp)
            have h1 : (c :: r).getLast? = r.getLast? :=
              getLast_append_ne [c] r (by rw [hreq]; simp)
            have h2 : r.getLast? = (d :: r2).getLast? := by
              conv_lhs => rw [hreq]
              exact getLast_append_ne _ _ (by simp)
            have h3 : (d :: r2).getLast? = r2.getLast? :=
              getLast_append_ne [d] r2 (by rw [hr2eq]; simp)
            have h4 : r2.getLast? = (e :: r4).getLast? := by
              conv_lhs => rw [hr2eq]
              exact getLast_append_ne _ _ (by simp)
            have hws := clean_last _ hclean x
              (h1.trans (h2.trans (h3.trans (h4.trans hx1))))
            rw [hx1]
            simp [hws]
          have hlen4 : (e :: r4).length ≤ n := by
            have hl1 : r.length = (r.takeWhile (fun x => !isJsWs x)).length
                + (d :: r2).length := by
              conv_lhs => rw [hreq]
              rw [List.length_append]
            have hl2 : r2.length = (r2.takeWhile isJsWs).length
                + (e :: r4).length := by
              conv_lhs => rw [hr2eq]
              rw [List.length_append]
            have := ht
            simp only [List.length_cons] at this hl1 hl2 ⊢
            omega
          have hIH := ih (e :: r4) hlen4 hclean4
          have hstep : collapseAux (d :: r2) false = '.' :: collapseAux r2 true := by
            rw [collapseAux]
            simp [hd]
          have hcoll2 : collapseAux r2 true = collapseAux (e :: r4) false := by
            conv_lhs => rw [hr2eq]
            rw [collapseAux_ws_skip _ _ hu2]
            exact collapseAux_true_of_head _ hheadE
          have hLHS : collapseAux (c :: r) false
              = (c :: r.takeWhile (fun x => !isJsWs x))
                ++ ('.' :: collapseAux (e :: r4) false) := by
            conv_lhs => rw [hcr]
            rw [collapseAux_nonws_front _ _ hallw, hstep, hcoll2]
          have hwstep : wordsAux (d :: r2)
              ((c :: r.takeWhile (fun x => !isJsWs x)).reverse)
              = (c :: r.takeWhile (fun x => !isJsWs x)) :: wordsAux r2 [] := by
            rw [wordsAux]
            simp [hd]
          have hwords2 : wordsAux r2 [] = wordsAux (e :: r4) [] := by
            conv_lhs => rw [hr2eq]
            exact wordsAux_ws_skip _ _ hu2
          have hWall : wordsAux (c :: r) []
              = (c :: r.takeWhile (fun x => !isJsWs x)) :: wordsAux (e :: r4) [] := by
            conv_lhs => rw [hcr]
            rw [wordsAux_nonws_front _ _ _ hallw, List.append_nil, hwstep, hwords2]
          have hne4 : wordsAux (e :: r4) [] ≠ [] := by
            rw [wordsAux]
            simp only [he]
            rw [if_neg (by simp)]
            exact wordsAux_ne_nil r4 e []
          obtain ⟨y, ys, hys⟩ := List.exists_cons_of_ne_nil hne4
          rw [hLHS, hWall, hys, joinSep, ← hys, hIH]
          simp [List.append_assoc]

/-- Counterexample for claim C4: on a name whose stripped form keeps a
trailing space, the code turns the boundary whitespace run into a period,
while the literal spec formula (words joined by periods) drops it. -/
theorem claim4_counterexample :
    generateEmail (("a !").toList) = ("a.@company.com").toList
    ∧ specLiteralEmail (("a !").toList) = ("a@company.com").toList
    ∧ generateEmail (("a !").toList) ≠ specLiteralEmail (("a !").toList) := by
  decide

/-- Claim C4 (amended): generateEmail equals the literal spec formula
(lowercase, strip non-letters, join whitespace-separated words with
periods, append the fixed domain) whenever the lowercased, non-letter
stripped name keeps no leading or trailing whitespace; otherwise the code
leaves a boundary period that the spec formula omits. -/
theorem claim4_amended (name : JStr)
    (h : boundaryClean (stripNonLetters (jsToLower name)) = true) :
    generateEmail name = specLiteralEmail name := by
  have hcx : boundaryClean (jsToLower name) = true := clean_of_strip_clean _ h
  have htrim : jsTrim (jsToLower name) = jsToLower name := trim_of_clean _ hcx
  rw [generateEmail, specLiteralEmail, htrim, collapseWs, wordsOf]
  rw [collapse_words_core (stripNonLetters (jsToLower name)).length _ le_rfl h]

/-- Witness for claim C4: on a plain two-word name the generated email
matches the literal spec formula. -/
theorem claim4_witness :
    boundaryClean (stripNonLetters (jsToLower (("John  Doe").toList))) = true
    ∧ generateEmail (("John  Doe").toList)
        = specLiteralEmail (("John  Doe").toList) :=
  ⟨by decide, claim4_amended _ (by decide)⟩
